import Mathlib

/-!
# Verification of `src/my_agent/fix_adk_logs_patch.py`

A shallow embedding of the patch script in `src/my_agent/fix_adk_logs_patch.py`.
The script reads a target file (`logs.py` of an installed package), checks a
marker substring for prior application, optionally inserts `import shutil`
after the first `import os` line, replaces the first occurrence of the call
`os.symlink(log_filepath, latest_log_link)` by a try/fallback block, writes a
timestamped backup and then the patched content.

Text content is modelled as `List Char` (Python `str`).  Python's substring
test `pat in s` is `hasSub pat s`; `s.replace(old, new, 1)` is
`replaceFirst s old new`.  The filesystem is modelled by an abstract existence
predicate and read function over component-lists of paths, so that the
path-discovery logic (lines 19-32 of the script) and the two writes
(lines 73 and 76) can be stated.
-/

set_option maxRecDepth 10000

abbrev Str := List Char

def str (s : String) : Str := s.data

/-- Python `startswith` on lists of characters: `isPrefOf p s` is true iff
`p` is a prefix of `s`. -/
def isPrefOf : Str → Str → Bool
  | [], _ => true
  | _ :: _, [] => false
  | a :: as, b :: bs => a == b && isPrefOf as bs

/-- Python's substring test `pat in s`. -/
def hasSub (pat : Str) : Str → Bool
  | [] => pat.isEmpty
  | c :: cs => isPrefOf pat (c :: cs) || hasSub pat cs

/-- Python's `s.replace(pat, rep, 1)`: replace the first occurrence of `pat`
in `s` by `rep` (identity when `pat` does not occur). -/
def replaceFirst : Str → Str → Str → Str
  | [], pat, rep => if pat.isEmpty then rep else []
  | c :: cs, pat, rep =>
    if isPrefOf pat (c :: cs) then rep ++ (c :: cs).drop pat.length
    else c :: replaceFirst cs pat rep

/-- `pat` occurs as a contiguous substring of `s`. -/
def Occurs (pat s : Str) : Prop := ∃ A B, s = A ++ pat ++ B

/-- No nonempty proper tail of `p` (a suffix `p.drop k`, `0 < k < p.length`)
is a prefix of `Y`: rules out an occurrence of `p` straddling the start of an
inserted block `Y`. -/
def noTailPref (p Y : Str) : Bool :=
  (List.range p.length).all fun k => k == 0 || !isPrefOf (p.drop k) Y

/-! ## The literal strings of the script -/

/-- Line 38: the idempotence marker `"fallback to copying the log file"`. -/
def marker : Str := str "fallback to copying the log file"

/-- Line 43: the auxiliary-import test string `"import shutil"`. -/
def importShutil : Str := str "import shutil"

/-- Line 45, first argument of `replace`: `"import os\n"`. -/
def importOsNl : Str := str "import os\n"

/-- Line 45, second argument of `replace`: `"import os\nimport shutil\n"`. -/
def importOsShutilNl : Str := str "import os\nimport shutil\n"

/-- The inserted line, so that `importOsShutilNl = importOsNl ++ insLine`. -/
def insLine : Str := str "import shutil\n"

/-- Line 48: `old_call = "os.symlink(log_filepath, latest_log_link)"`. -/
def old_call : Str := str "os.symlink(log_filepath, latest_log_link)"

/-- Lines 53-65: `new_block`, the replacement try/fallback block, written as
the same concatenation of line literals as in the script. -/
def new_block : Str :=
  str "try:\n" ++
  str "        if os.path.exists(latest_log_link):\n" ++
  str "            os.remove(latest_log_link)\n" ++
  str "        os.symlink(log_filepath, latest_log_link)\n" ++
  str "    except OSError:\n" ++
  str "        # Windows: creating symlinks requires a privilege; fall back to copying the file.\n" ++
  str "        try:\n" ++
  str "            shutil.copy2(log_filepath, latest_log_link)\n" ++
  str "        except Exception:\n" ++
  str "            # Last resort: ignore copying failure to avoid crashing the CLI.\n" ++
  str "            pass\n"

/-- The part of `new_block` before its embedded `old_call` occurrence. -/
def nbPre : Str :=
  str "try:\n" ++
  str "        if os.path.exists(latest_log_link):\n" ++
  str "            os.remove(latest_log_link)\n" ++
  str "        "

/-- The part of `new_block` after its embedded `old_call` occurrence. -/
def nbPost : Str :=
  str "\n" ++
  str "    except OSError:\n" ++
  str "        # Windows: creating symlinks requires a privilege; fall back to copying the file.\n" ++
  str "        try:\n" ++
  str "            shutil.copy2(log_filepath, latest_log_link)\n" ++
  str "        except Exception:\n" ++
  str "            # Last resort: ignore copying failure to avoid crashing the CLI.\n" ++
  str "            pass\n"

/-! ## The validate-and-apply core (lines 38-76, after the file is read) -/

/-- The outcome of one run on a given file content: process exit code, the
content written to the backup file (if any), and the content written back to
the target (if any). -/
structure RunOut where
  exitCode : Nat
  backupWrite : Option Str
  targetWrite : Option Str
deriving DecidableEq

/-- Lines 43-45: `orig = orig.replace("import os\n", "import os\nimport shutil\n", 1)`
guarded by `if "import shutil" not in orig`. -/
def insertShutil (orig : Str) : Str :=
  if hasSub importShutil orig then orig
  else replaceFirst orig importOsNl importOsShutilNl

/-- Lines 38-76 of the script, as a function of the content read from the
target file:
* marker present (line 38) → `sys.exit(0)`, no writes;
* otherwise insert the import (lines 43-45), and if `old_call` is absent from
  the (possibly mutated) content (line 49) → `sys.exit(1)`, no writes;
* otherwise write the mutated content to the backup (line 73) and the
  replacement result to the target (line 76), falling off the end (exit 0). -/
def applyPatch (orig : Str) : RunOut :=
  if hasSub marker orig then ⟨0, none, none⟩
  else
    let orig1 := insertShutil orig
    if hasSub old_call orig1 then
      ⟨0, some orig1, some (replaceFirst orig1 old_call new_block)⟩
    else ⟨1, none, none⟩

/-! ## Path discovery and the whole run (lines 19-78) -/

/-- A filesystem path as its list of components (`pathlib.Path` built with `/`). -/
abbrev PPath := List Str

/-- The observable effect of one invocation: process exit status and the list
of `write_text` calls performed, in order, as (path, content) pairs. -/
structure ScriptOut where
  exitCode : Nat
  writes : List (PPath × Str)
deriving DecidableEq

/-- The fixed relative components `"google" / "adk" / "cli" / "utils" / "logs.py"`
shared by the primary path (line 19) and the candidates (line 24). -/
def relParts : List Str := [str "google", str "adk", str "cli", str "utils", str "logs.py"]

/-- Line 19: `Path(sys.prefix) / "Lib" / "site-packages" / ... / "logs.py"`. -/
def primaryTarget (pfx : Str) : PPath := [pfx, str "Lib", str "site-packages"] ++ relParts

/-- Line 24: `Path(p) / "google" / "adk" / "cli" / "utils" / "logs.py"`. -/
def candidateOf (p : Str) : PPath := [p] ++ relParts

/-- Lines 19-27: start from the primary path; if it does not exist, scan
`site.getsitepackages() + [site.getusersitepackages()]` in order and take the
first existing candidate (the primary path stands when none exists). The
filesystem is the abstract existence predicate `ex`. -/
def resolveTarget (pfx : Str) (sitePkgs : List Str) (userSite : Str)
    (ex : PPath → Bool) : PPath :=
  let t0 := primaryTarget pfx
  if ex t0 then t0
  else
    match ((sitePkgs ++ [userSite]).map candidateOf).find? ex with
    | some c => c
    | none => t0

/-- A clock reading, the fields of `datetime.datetime.now()` used by the
format `"%Y%m%d_%H%M%S"` (line 70). -/
structure DT where
  y : Nat
  mo : Nat
  d : Nat
  h : Nat
  mi : Nat
  s : Nat
deriving DecidableEq

/-- Two zero-padded decimal digits, the rendering of `%m`, `%d`, `%H`, `%M`,
`%S` for the field values `datetime` guarantees (all below 100). -/
def pad2 (n : Nat) : Str := [Nat.digitChar (n / 10 % 10), Nat.digitChar (n % 10)]

/-- Four decimal digits, the rendering of `%Y`; exact for years in
`[1000, 9999]` (and `datetime` caps years at 9999). -/
def pad4 (n : Nat) : Str :=
  [Nat.digitChar (n / 1000 % 10), Nat.digitChar (n / 100 % 10),
   Nat.digitChar (n / 10 % 10), Nat.digitChar (n % 10)]

/-- Line 70: `datetime.datetime.now().strftime("%Y%m%d_%H%M%S")`. -/
def fmtStamp (t : DT) : Str :=
  pad4 t.y ++ pad2 t.mo ++ pad2 t.d ++ ['_'] ++ pad2 t.h ++ pad2 t.mi ++ pad2 t.s

/-- `PurePath.suffix` of a file name (CPython: the text from the final dot on,
provided that dot is neither leading nor trailing; `""` otherwise). -/
def nameSuffix (n : Str) : Str :=
  match n.reverse.findIdx? (fun c => c == '.') with
  | none => []
  | some j =>
    let i := n.length - 1 - j
    if 0 < i ∧ i + 1 < n.length then n.drop i else []

/-- `PurePath.with_suffix`: remove the old suffix (when there is one) from the
name and append the new one. -/
def withSuffix (n sfx : Str) : Str :=
  let old := nameSuffix n
  if old.isEmpty then n ++ sfx else n.take (n.length - old.length) ++ sfx

/-- The file-name component of a path. -/
def pathName (t : PPath) : Str := t.getLast?.getD []

/-- The sibling of `t` with file name `n` (same directory components). -/
def withName (t : PPath) (n : Str) : PPath := t.dropLast ++ [n]

/-- The entire script run (lines 19-78) against an abstract filesystem:
`ex` is `Path.exists`, `rd` is `Path.read_text`, `now` the clock value read at
line 70.  Line 30: a missing target exits 1 with no writes.  Otherwise the
content is read once and lines 38-76 run: the backup write (line 73, at
`target.with_suffix(target.suffix + ".bak_" + stamp)`) precedes the target
write (line 76). -/
def script (pfx : Str) (sitePkgs : List Str) (userSite : Str)
    (ex : PPath → Bool) (rd : PPath → Str) (now : DT) : ScriptOut :=
  let t := resolveTarget pfx sitePkgs userSite ex
  if ex t then
    let r := applyPatch (rd t)
    let bname := withSuffix (pathName t) (nameSuffix (pathName t) ++ str ".bak_" ++ fmtStamp now)
    ⟨r.exitCode,
      (match r.backupWrite with
        | some b => [(withName t bname, b)]
        | none => []) ++
      (match r.targetWrite with
        | some n => [(t, n)]
        | none => [])⟩
  else ⟨1, []⟩

/-! ## Concrete contents used to exercise the theorems -/

/-- A minimal `logs.py`-like content: an `import os` line, an `import shutil`
line and the symlink call. -/
def demoA : Str := str "import os\nimport shutil\nos.symlink(log_filepath, latest_log_link)\n"

/-- The content `demoA` becomes after one successful patch run. -/
def demoA1 : Str := replaceFirst demoA old_call new_block

/-- A content with an `import os` line but no `import shutil`. -/
def demoB : Str := str "import os\nos.symlink(log_filepath, latest_log_link)\n"

/-- What one run writes back to the target for `demoB`. -/
def demoB1 : Str := str "import os\nimport shutil\nos.symlink(log_filepath, latest_log_link)\n"

/-- A content with neither `import os` nor `import shutil`. -/
def demoC : Str := str "os.symlink(log_filepath, latest_log_link)\n"

/-- A filesystem on which every probed path exists. -/
def fsAll : PPath → Bool := fun _ => true

/-- A filesystem on which no probed path exists. -/
def fsNone : PPath → Bool := fun _ => false

/-- A read function returning already-marked content. -/
def rdMarker : PPath → Str := fun _ => marker

/-- A read function returning content with no symlink call. -/
def rdPlain : PPath → Str := fun _ => str "x = 1\n"

/-- A read function returning the content `demoB`. -/
def rdB : PPath → Str := fun _ => demoB

/-- A fixed clock value. -/
def dtDemo : DT := ⟨2025, 10, 12, 13, 14, 15⟩

/-! ## Substring toolkit -/

theorem isPrefOf_iff : ∀ (p s : Str), isPrefOf p s = true ↔ ∃ t, s = p ++ t
  | [], s => by simp [isPrefOf]
  | a :: as, [] => by simp [isPrefOf]
  | a :: as, b :: bs => by
    simp only [isPrefOf, Bool.and_eq_true, beq_iff_eq, List.cons_append]
    constructor
    · rintro ⟨rfl, h⟩
      obtain ⟨t, rfl⟩ := (isPrefOf_iff as bs).1 h
      exact ⟨t, rfl⟩
    · rintro ⟨t, ht⟩
      injection ht with h1 h2
      exact ⟨h1.symm, (isPrefOf_iff as bs).2 ⟨t, h2⟩⟩

theorem hasSub_iff : ∀ (p s : Str), hasSub p s = true ↔ Occurs p s
  | p, [] => by
    simp only [hasSub, List.isEmpty_iff, Occurs]
    constructor
    · rintro rfl; exact ⟨[], [], rfl⟩
    · rintro ⟨A, B, h⟩
      rcases List.append_eq_nil.1 h.symm with ⟨h1, h2⟩
      exact (List.append_eq_nil.1 h1).2
  | p, c :: cs => by
    simp only [hasSub, Bool.or_eq_true, isPrefOf_iff, hasSub_iff p cs]
    constructor
    · rintro (⟨t, ht⟩ | ⟨A, B, rfl⟩)
      · exact ⟨[], t, by simpa using ht⟩
      · exact ⟨c :: A, B, rfl⟩
    · rintro ⟨A, B, h⟩
      cases A with
      | nil => exact Or.inl ⟨B, by simpa using h⟩
      | cons x A2 =>
        injection h with h1 h2
        exact Or.inr ⟨A2, B, h2⟩

theorem hasSub_false_iff {p s : Str} : hasSub p s = false ↔ ¬ Occurs p s := by
  rw [← hasSub_iff]
  cases hasSub p s <;> simp

theorem occurs_app_left {p X : Str} (Y : Str) (h : Occurs p X) : Occurs p (X ++ Y) := by
  obtain ⟨A, B, rfl⟩ := h
  exact ⟨A, B ++ Y, by simp⟩

theorem occurs_app_right (X : Str) {p Y : Str} (h : Occurs p Y) : Occurs p (X ++ Y) := by
  obtain ⟨A, B, rfl⟩ := h
  exact ⟨X ++ A, B, by simp⟩

theorem occurs_length {p X : Str} (h : Occurs p X) : p.length ≤ X.length := by
  obtain ⟨A, B, rfl⟩ := h
  simp only [List.length_append]
  omega

theorem occurs_split {p X Y : Str} (h : Occurs p (X ++ Y)) :
    Occurs p X ∨ Occurs p Y ∨
      ∃ a t, a ++ t = p ∧ a ≠ [] ∧ t ≠ [] ∧ (∃ X0, X = X0 ++ a) ∧ ∃ Y0, Y = t ++ Y0 := by
  obtain ⟨A, B, hAB⟩ := h
  rw [List.append_assoc] at hAB
  rcases List.append_eq_append_iff.1 hAB with ⟨a2, ha1, ha2⟩ | ⟨c2, hc1, hc2⟩
  · exact Or.inr (Or.inl ⟨a2, B, by rw [ha2, List.append_assoc]⟩)
  · rcases List.append_eq_append_iff.1 hc2 with ⟨a3, hb1, hb2⟩ | ⟨t, ht1, ht2⟩
    · exact Or.inl ⟨A, a3, by rw [hc1, hb1, ← List.append_assoc]⟩
    · rcases eq_or_ne c2 [] with rfl | hcne
      · refine Or.inr (Or.inl ⟨[], B, ?_⟩)
        simp only [List.nil_append] at ht1
        rw [ht2, ← ht1]
        simp
      · rcases eq_or_ne t [] with rfl | htne
        · refine Or.inl ⟨A, [], ?_⟩
          simp only [List.append_nil] at ht1
          rw [hc1, ← ht1]
          simp
        · exact Or.inr (Or.inr ⟨c2, t, ht1.symm, hcne, htne, ⟨A, hc1⟩, ⟨B, ht2⟩⟩)

theorem crossing_last_mem {p a t X X0 : Str} (hp : a ++ t = p) (ha : a ≠ [])
    (hX : X = X0 ++ a) : ∃ c, X.getLast? = some c ∧ c ∈ p := by
  have h1 : X.getLast? = a.getLast? := by
    rw [hX]
    exact List.getLast?_append_of_ne_nil X0 ha
  refine ⟨a.getLast ha, ?_, ?_⟩
  · rw [h1, List.getLast?_eq_getLast a ha]
  · rw [← hp]
    exact List.mem_append_left t (List.getLast_mem ha)

theorem noTailPref_spec {p Y a t : Str} (hn : noTailPref p Y = true)
    (hp : a ++ t = p) (ha : a ≠ []) (ht : t ≠ []) (hY : ∃ Y0, Y = t ++ Y0) : False := by
  have hk : t = p.drop a.length := by rw [← hp, List.drop_left]
  have h0 : 0 < a.length := List.length_pos.2 ha
  have hlen : a.length < p.length := by
    have ht0 : 0 < t.length := List.length_pos.2 ht
    have := congrArg List.length hp
    simp only [List.length_append] at this
    omega
  have hall := List.all_eq_true.1 hn a.length (List.mem_range.2 hlen)
  simp only [Bool.or_eq_true, beq_iff_eq, Bool.not_eq_true'] at hall
  rcases hall with h | h
  · omega
  · have h2 := (isPrefOf_iff t Y).2 hY
    rw [hk] at h2
    rw [h2] at h
    exact Bool.noConfusion h

theorem replaceFirst_no {pat rep : Str} : ∀ {s : Str}, ¬ Occurs pat s → replaceFirst s pat rep = s := by
  intro s
  induction s with
  | nil =>
    intro h
    rw [replaceFirst, if_neg]
    intro hE
    rw [List.isEmpty_iff] at hE
    exact h ⟨[], [], by simp [hE]⟩
  | cons c cs ih =>
    intro h
    rw [replaceFirst, if_neg, ih]
    · intro hocc
      exact h (occurs_app_right [c] hocc)
    · intro hpre
      obtain ⟨t, ht⟩ := (isPrefOf_iff _ _).1 hpre
      exact h ⟨[], t, by simpa using ht⟩

theorem replaceFirst_spec (rep : Str) {pat : Str} (hne : pat ≠ []) :
    ∀ {s : Str}, Occurs pat s →
      ∃ A B, s = A ++ pat ++ B ∧ replaceFirst s pat rep = A ++ rep ++ B ∧
        ¬ Occurs pat (A ++ pat).dropLast := by
  intro s
  induction s with
  | nil =>
    intro h
    obtain ⟨A, B, h⟩ := h
    rcases List.append_eq_nil.1 h.symm with ⟨h1, _⟩
    exact absurd (List.append_eq_nil.1 h1).2 hne
  | cons c cs ih =>
    intro h
    by_cases hp : isPrefOf pat (c :: cs) = true
    · obtain ⟨t, ht⟩ := (isPrefOf_iff _ _).1 hp
      refine ⟨[], t, by simpa using ht, ?_, ?_⟩
      · rw [replaceFirst, if_pos hp, ht, List.drop_left]
        simp
      · intro hocc
        have h1 := occurs_length hocc
        rw [List.nil_append, List.length_dropLast] at h1
        have h2 : 0 < pat.length := List.length_pos.2 hne
        omega
    · have hocc : Occurs pat cs := by
        obtain ⟨A, B, hab⟩ := h
        cases A with
        | nil => exact absurd ((isPrefOf_iff _ _).2 ⟨B, by simpa using hab⟩) hp
        | cons x A2 =>
          rw [List.cons_append, List.cons_append] at hab
          injection hab with h1 h2
          exact ⟨A2, B, h2⟩
      obtain ⟨A2, B2, h1, h2, h3⟩ := ih hocc
      have hne2 : A2 ++ pat ≠ [] := by
        intro hnil
        exact hne (List.append_eq_nil.1 hnil).2
      obtain ⟨D, l, hDl⟩ : ∃ D l, A2 ++ pat = D ++ [l] :=
        ⟨_, _, (List.dropLast_append_getLast hne2).symm⟩
      have hD : (A2 ++ pat).dropLast = D := by
        rw [hDl, List.dropLast_concat]
      refine ⟨c :: A2, B2, by simp [h1], ?_, ?_⟩
      · rw [replaceFirst, if_neg hp, h2]
        simp
      · intro hocc2
        have hDL : ((c :: A2) ++ pat).dropLast = c :: D := by
          rw [List.cons_append]
          cases hap : A2 ++ pat with
          | nil => exact absurd hap hne2
          | cons y ys =>
            simp only [List.dropLast]
            rw [← hap, hD]
        rw [hDL] at hocc2
        obtain ⟨A3, B3, heq⟩ := hocc2
        cases A3 with
        | nil =>
          refine absurd ((isPrefOf_iff pat (c :: cs)).2 ?_) hp
          simp only [List.nil_append] at heq
          refine ⟨B3 ++ [l] ++ B2, ?_⟩
          calc c :: cs = (c :: (A2 ++ pat)) ++ B2 := by rw [h1]; rfl
            _ = (c :: (D ++ [l])) ++ B2 := by rw [hDl]
            _ = ((c :: D) ++ [l]) ++ B2 := rfl
            _ = ((pat ++ B3) ++ [l]) ++ B2 := by rw [heq]
            _ = pat ++ (B3 ++ [l] ++ B2) := by simp [List.append_assoc]
        | cons z A4 =>
          rw [List.cons_append, List.cons_append] at heq
          injection heq with h4 h5
          rw [hD] at h3
          exact h3 ⟨A4, B3, h5⟩

theorem occurs_glue_nl {p X Y : Str} (hnl : ¬ '\n' ∈ p)
    (hX : X.getLast? = some '\n') (h : Occurs p (X ++ Y)) : Occurs p X ∨ Occurs p Y := by
  rcases occurs_split h with h | h | ⟨a, t, hp, ha, ht, ⟨X0, hX0⟩, hY0⟩
  · exact Or.inl h
  · exact Or.inr h
  · exfalso
    obtain ⟨c, hc1, hc2⟩ := crossing_last_mem hp ha hX0
    rw [hX] at hc1
    injection hc1 with hc1
    exact hnl (hc1 ▸ hc2)

theorem insertShutil_of_has {orig : Str} (h : hasSub importShutil orig = true) :
    insertShutil orig = orig := by
  rw [insertShutil, if_pos h]

theorem insertShutil_of_noAnchor {orig : Str} (h1 : hasSub importShutil orig = false)
    (h2 : hasSub importOsNl orig = false) : insertShutil orig = orig := by
  rw [insertShutil, if_neg (by simp [h1]), replaceFirst_no (hasSub_false_iff.1 h2)]

theorem insertShutil_of_anchor {orig : Str} (h1 : hasSub importShutil orig = false)
    (h2 : hasSub importOsNl orig = true) :
    ∃ A1 B1, orig = A1 ++ importOsNl ++ B1 ∧
      insertShutil orig = A1 ++ importOsNl ++ insLine ++ B1 ∧
      ¬ Occurs importOsNl (A1 ++ importOsNl).dropLast := by
  obtain ⟨A1, B1, hA, hR, hF⟩ :=
    replaceFirst_spec importOsShutilNl (by decide) ((hasSub_iff _ _).1 h2)
  refine ⟨A1, B1, hA, ?_, hF⟩
  rw [insertShutil, if_neg (by simp [h1]), hR]
  have h3 : importOsShutilNl = importOsNl ++ insLine := by decide
  rw [h3]
  simp [List.append_assoc]

theorem occurs_insertShutil_iff {p : Str} (hnl : ¬ '\n' ∈ p) (hni : ¬ Occurs p insLine)
    (orig : Str) : Occurs p (insertShutil orig) ↔ Occurs p orig := by
  by_cases h1 : hasSub importShutil orig = true
  · rw [insertShutil_of_has h1]
  · have h1f : hasSub importShutil orig = false := by simpa using h1
    by_cases h2 : hasSub importOsNl orig = true
    · obtain ⟨A1, B1, hA, hR, _⟩ := insertShutil_of_anchor h1f h2
      rw [hR]
      have hlast : (A1 ++ importOsNl).getLast? = some '\n' := by
        rw [List.getLast?_append_of_ne_nil A1 (by decide : importOsNl ≠ [])]
        decide
      constructor
      · intro hocc
        have hocc2 : Occurs p ((A1 ++ importOsNl) ++ (insLine ++ B1)) := by
          simpa [List.append_assoc] using hocc
        rcases occurs_glue_nl hnl hlast hocc2 with h | h
        · rw [hA]
          exact occurs_app_left B1 h
        · rcases occurs_glue_nl hnl (by decide : insLine.getLast? = some '\n') h with h | h
          · exact absurd h hni
          · rw [hA]
            exact occurs_app_right (A1 ++ importOsNl) h
      · intro hocc
        rw [hA] at hocc
        rcases occurs_glue_nl hnl hlast hocc with h | h
        · have h4 := occurs_app_left (insLine ++ B1) h
          simpa [List.append_assoc] using h4
        · exact occurs_app_right (A1 ++ importOsNl ++ insLine) h
    · rw [insertShutil_of_noAnchor h1f (by simpa using h2)]

theorem applyPatch_marker {orig : Str} (h : hasSub marker orig = true) :
    applyPatch orig = ⟨0, none, none⟩ := by
  rw [applyPatch, if_pos h]

theorem applyPatch_noPattern {orig : Str} (hm : hasSub marker orig = false)
    (hc : hasSub old_call (insertShutil orig) = false) :
    applyPatch orig = ⟨1, none, none⟩ := by
  simp [applyPatch, hm, hc]

theorem applyPatch_success {orig : Str} (hm : hasSub marker orig = false)
    (hc : hasSub old_call (insertShutil orig) = true) :
    applyPatch orig = ⟨0, some (insertShutil orig),
      some (replaceFirst (insertShutil orig) old_call new_block)⟩ := by
  simp [applyPatch, hm, hc]

theorem nb_decomp : new_block = nbPre ++ old_call ++ nbPost := by decide

theorem occurs_oc_in_new (A B : Str) : Occurs old_call (A ++ new_block ++ B) := by
  refine ⟨A ++ nbPre, nbPost ++ B, ?_⟩
  rw [nb_decomp]
  simp [List.append_assoc]

theorem not_occurs_in_patched {p orig1 A B : Str} (hnl : ¬ '\n' ∈ p)
    (hnb : ¬ Occurs p new_block) (hcr : noTailPref p new_block = true)
    (ho : ¬ Occurs p orig1) (hA : orig1 = A ++ old_call ++ B) :
    ¬ Occurs p (A ++ new_block ++ B) := by
  intro hocc
  have hlastnb : (A ++ new_block).getLast? = some '\n' := by
    rw [List.getLast?_append_of_ne_nil A (by decide : new_block ≠ [])]
    decide
  rcases occurs_glue_nl hnl hlastnb hocc with h | h
  · rcases occurs_split h with h | h | ⟨a, t, hp, ha, ht, hX0, hY0⟩
    · exact ho (by rw [hA]; exact occurs_app_left B (occurs_app_left old_call h))
    · exact hnb h
    · exact noTailPref_spec hcr hp ha ht hY0
  · exact ho (by rw [hA]; exact occurs_app_right (A ++ old_call) h)

/-! ## Claims -/

/-- C1: the spec claims the patcher is idempotent — a second run on already
patched content is a write-free success leaving the content unchanged.  The
code violates this: `new_block` does not contain the marker
`"fallback to copying the log file"` (its comment reads "fall back to copying
the file."), yet still contains `old_call`, so on the patched content `demoA1`
the second run again writes a backup and writes target content different from
`demoA1`. -/
theorem claim_C1_not_idempotent :
    applyPatch demoA = ⟨0, some demoA, some demoA1⟩ ∧
    hasSub marker demoA1 = false ∧
    (applyPatch demoA1).backupWrite = some demoA1 ∧
    (applyPatch demoA1).targetWrite ≠ some demoA1 ∧
    (applyPatch demoA1).targetWrite ≠ none ∧
    (applyPatch demoA1).exitCode = 0 := by decide

/-- C2: the spec claims the backup equals the pre-run target content
byte-for-byte, in particular when `import shutil` was absent.  The code
violates this: on `demoB` (no `import shutil`) the `import shutil` insertion
mutates the in-memory content before line 73 writes it to the backup, so the
backup `demoB1` differs from the pre-run content `demoB`. -/
theorem claim_C2_backup_mutated :
    hasSub marker demoB = false ∧ hasSub importShutil demoB = false ∧
    hasSub old_call demoB = true ∧
    (applyPatch demoB).backupWrite = some demoB1 ∧ demoB1 ≠ demoB := by decide

/-- C3: for every content without the marker and containing `old_call`, the
run succeeds, backs up the import-adjusted content and writes to the target
that content with exactly its first `old_call` occurrence replaced by
`new_block`; the adjustment inserts the `import shutil` line right after the
first `import os` line when `import shutil` was absent and such a line
exists, and is the identity otherwise. -/
theorem claim_C3_transformation (orig : Str)
    (hm : hasSub marker orig = false) (hc : hasSub old_call orig = true) :
    ∃ A B,
      applyPatch orig =
        ⟨0, some (insertShutil orig), some (A ++ new_block ++ B)⟩ ∧
      insertShutil orig = A ++ old_call ++ B ∧
      ¬ Occurs old_call (A ++ old_call).dropLast ∧
      (hasSub importShutil orig = true → insertShutil orig = orig) ∧
      (hasSub importShutil orig = false → hasSub importOsNl orig = false →
        insertShutil orig = orig) ∧
      (hasSub importShutil orig = false → hasSub importOsNl orig = true →
        ∃ A1 B1, orig = A1 ++ importOsNl ++ B1 ∧
          insertShutil orig = A1 ++ importOsNl ++ insLine ++ B1 ∧
          ¬ Occurs importOsNl (A1 ++ importOsNl).dropLast) := by
  have hocc : Occurs old_call (insertShutil orig) :=
    (occurs_insertShutil_iff (by decide)
      (fun h => absurd ((hasSub_iff _ _).2 h) (by decide)) orig).2 ((hasSub_iff _ _).1 hc)
  obtain ⟨A, B, h1, h2, h3⟩ := replaceFirst_spec new_block (by decide) hocc
  refine ⟨A, B, ?_, h1, h3, fun h => insertShutil_of_has h,
    fun ha hb => insertShutil_of_noAnchor ha hb,
    fun ha hb => insertShutil_of_anchor ha hb⟩
  rw [applyPatch_success hm ((hasSub_iff _ _).2 hocc), h2]

/-- Witness for C3 at the concrete content `demoB`. -/
theorem claim_C3_witness :
    ∃ A B,
      applyPatch demoB =
        ⟨0, some (insertShutil demoB), some (A ++ new_block ++ B)⟩ ∧
      insertShutil demoB = A ++ old_call ++ B ∧
      ¬ Occurs old_call (A ++ old_call).dropLast ∧
      (hasSub importShutil demoB = true → insertShutil demoB = demoB) ∧
      (hasSub importShutil demoB = false → hasSub importOsNl demoB = false →
        insertShutil demoB = demoB) ∧
      (hasSub importShutil demoB = false → hasSub importOsNl demoB = true →
        ∃ A1 B1, demoB = A1 ++ importOsNl ++ B1 ∧
          insertShutil demoB = A1 ++ importOsNl ++ insLine ++ B1 ∧
          ¬ Occurs importOsNl (A1 ++ importOsNl).dropLast) :=
  claim_C3_transformation demoB (by decide) (by decide)

/-- C8: when the content contains neither `import shutil` nor an
`import os` line (marker absent, call present), the import-insertion step is
the identity, the run still patches and writes — backing up the unmodified
content — and the written target content contains `import shutil` nowhere. -/
theorem claim_C8_anchor_missing (orig : Str)
    (hsh : hasSub importShutil orig = false) (han : hasSub importOsNl orig = false)
    (hm : hasSub marker orig = false) (hc : hasSub old_call orig = true) :
    insertShutil orig = orig ∧
    applyPatch orig = ⟨0, some orig, some (replaceFirst orig old_call new_block)⟩ ∧
    hasSub importShutil (replaceFirst orig old_call new_block) = false := by
  have hid := insertShutil_of_noAnchor hsh han
  have hocc : Occurs old_call orig := (hasSub_iff _ _).1 hc
  obtain ⟨A, B, h1, h2, h3⟩ := replaceFirst_spec new_block (by decide) hocc
  refine ⟨hid, ?_, ?_⟩
  · have h4 := applyPatch_success hm (by rw [hid]; exact hc)
    rw [hid] at h4
    exact h4
  · rw [h2]
    exact hasSub_false_iff.2 (not_occurs_in_patched (by decide)
      (fun h => absurd ((hasSub_iff _ _).2 h) (by decide)) (by decide)
      (hasSub_false_iff.1 hsh) h1)

/-- Witness for C8 at the concrete content `demoC`. -/
theorem claim_C8_witness :
    insertShutil demoC = demoC ∧
    applyPatch demoC = ⟨0, some demoC, some (replaceFirst demoC old_call new_block)⟩ ∧
    hasSub importShutil (replaceFirst demoC old_call new_block) = false :=
  claim_C8_anchor_missing demoC (by decide) (by decide) (by decide) (by decide)

/-- C9: every successfully written target content still contains the literal
`old_call` (inside the inserted block) and does not contain the marker — the
facts that make C1's idempotence fail. -/
theorem claim_C9_postcontent (orig : Str)
    (hm : hasSub marker orig = false) (hc : hasSub old_call orig = true) :
    ∃ n, (applyPatch orig).targetWrite = some n ∧
      hasSub old_call n = true ∧ hasSub marker n = false := by
  have hocc : Occurs old_call (insertShutil orig) :=
    (occurs_insertShutil_iff (by decide)
      (fun h => absurd ((hasSub_iff _ _).2 h) (by decide)) orig).2 ((hasSub_iff _ _).1 hc)
  obtain ⟨A, B, h1, h2, h3⟩ := replaceFirst_spec new_block (by decide) hocc
  have hm1 : ¬ Occurs marker (insertShutil orig) := by
    rw [occurs_insertShutil_iff (by decide)
      (fun h => absurd ((hasSub_iff _ _).2 h) (by decide)) orig]
    exact hasSub_false_iff.1 hm
  refine ⟨A ++ new_block ++ B, ?_, ?_, ?_⟩
  · rw [applyPatch_success hm ((hasSub_iff _ _).2 hocc)]
    show some (replaceFirst (insertShutil orig) old_call new_block) = _
    rw [h2]
  · exact (hasSub_iff _ _).2 (occurs_oc_in_new A B)
  · exact hasSub_false_iff.2 (not_occurs_in_patched (by decide)
      (fun h => absurd ((hasSub_iff _ _).2 h) (by decide)) (by decide) hm1 h1)

/-- Witness for C9 at the concrete content `demoA`. -/
theorem claim_C9_witness :
    ∃ n, (applyPatch demoA).targetWrite = some n ∧
      hasSub old_call n = true ∧ hasSub marker n = false :=
  claim_C9_postcontent demoA (by decide) (by decide)

/-- C10: the frame property of a successful run: the written content is the
pre-run content with exactly the first `old_call` occurrence replaced by
`new_block` and — only when `import shutil` was absent and an `import os`
line present — one `import shutil` line inserted after the first
`import os` line; all other characters are carried over unchanged by the
decompositions. -/
theorem claim_C10_frame (orig : Str)
    (hm : hasSub marker orig = false) (hc : hasSub old_call orig = true) :
    (hasSub importShutil orig = true →
      ∃ A B, orig = A ++ old_call ++ B ∧ ¬ Occurs old_call (A ++ old_call).dropLast ∧
        (applyPatch orig).targetWrite = some (A ++ new_block ++ B)) ∧
    (hasSub importShutil orig = false → hasSub importOsNl orig = false →
      ∃ A B, orig = A ++ old_call ++ B ∧ ¬ Occurs old_call (A ++ old_call).dropLast ∧
        (applyPatch orig).targetWrite = some (A ++ new_block ++ B)) ∧
    (hasSub importShutil orig = false → hasSub importOsNl orig = true →
      ∃ A1 B1 A B, orig = A1 ++ importOsNl ++ B1 ∧
        ¬ Occurs importOsNl (A1 ++ importOsNl).dropLast ∧
        A1 ++ importOsNl ++ insLine ++ B1 = A ++ old_call ++ B ∧
        ¬ Occurs old_call (A ++ old_call).dropLast ∧
        (applyPatch orig).targetWrite = some (A ++ new_block ++ B)) := by
  have hocc : Occurs old_call (insertShutil orig) :=
    (occurs_insertShutil_iff (by decide)
      (fun h => absurd ((hasSub_iff _ _).2 h) (by decide)) orig).2 ((hasSub_iff _ _).1 hc)
  obtain ⟨A, B, h1, h2, h3⟩ := replaceFirst_spec new_block (by decide) hocc
  have hAP : (applyPatch orig).targetWrite = some (A ++ new_block ++ B) := by
    rw [applyPatch_success hm ((hasSub_iff _ _).2 hocc)]
    show some (replaceFirst (insertShutil orig) old_call new_block) = _
    rw [h2]
  refine ⟨?_, ?_, ?_⟩
  · intro h
    have hid := insertShutil_of_has h
    rw [hid] at h1
    exact ⟨A, B, h1, h3, hAP⟩
  · intro ha hb
    have hid := insertShutil_of_noAnchor ha hb
    rw [hid] at h1
    exact ⟨A, B, h1, h3, hAP⟩
  · intro ha hb
    obtain ⟨A1, B1, g1, g2, g3⟩ := insertShutil_of_anchor ha hb
    refine ⟨A1, B1, A, B, g1, g3, ?_, h3, hAP⟩
    rw [← g2]
    exact h1

/-- Witness for C10 at the concrete content `demoA`. -/
theorem claim_C10_witness :
    (hasSub importShutil demoA = true →
      ∃ A B, demoA = A ++ old_call ++ B ∧ ¬ Occurs old_call (A ++ old_call).dropLast ∧
        (applyPatch demoA).targetWrite = some (A ++ new_block ++ B)) ∧
    (hasSub importShutil demoA = false → hasSub importOsNl demoA = false →
      ∃ A B, demoA = A ++ old_call ++ B ∧ ¬ Occurs old_call (A ++ old_call).dropLast ∧
        (applyPatch demoA).targetWrite = some (A ++ new_block ++ B)) ∧
    (hasSub importShutil demoA = false → hasSub importOsNl demoA = true →
      ∃ A1 B1 A B, demoA = A1 ++ importOsNl ++ B1 ∧
        ¬ Occurs importOsNl (A1 ++ importOsNl).dropLast ∧
        A1 ++ importOsNl ++ insLine ++ B1 = A ++ old_call ++ B ∧
        ¬ Occurs old_call (A ++ old_call).dropLast ∧
        (applyPatch demoA).targetWrite = some (A ++ new_block ++ B)) :=
  claim_C10_frame demoA (by decide) (by decide)

/-! ## Path discovery and timestamp lemmas -/

theorem resolveTarget_cases (pfx : Str) (sites : List Str) (user : Str) (ex : PPath → Bool) :
    resolveTarget pfx sites user ex = primaryTarget pfx ∨
      ∃ p, resolveTarget pfx sites user ex = candidateOf p := by
  by_cases h : ex (primaryTarget pfx) = true
  · left
    simp only [resolveTarget, h, if_true]
  · have hb : ex (primaryTarget pfx) = false := by simpa using h
    cases hf : ((sites ++ [user]).map candidateOf).find? ex with
    | none =>
      left
      simp only [resolveTarget, hb, Bool.false_eq_true, if_false]
      rw [hf]
    | some c =>
      right
      obtain ⟨p, hp, rfl⟩ := List.mem_map.1 (List.mem_of_find?_eq_some hf)
      refine ⟨p, ?_⟩
      simp only [resolveTarget, hb, Bool.false_eq_true, if_false]
      rw [hf]

theorem pathName_resolveTarget (pfx : Str) (sites : List Str) (user : Str) (ex : PPath → Bool) :
    pathName (resolveTarget pfx sites user ex) = str "logs.py" := by
  rcases resolveTarget_cases pfx sites user ex with h | ⟨p, h⟩ <;> rw [h] <;> rfl

theorem resolveTarget_ne_nil (pfx : Str) (sites : List Str) (user : Str) (ex : PPath → Bool) :
    resolveTarget pfx sites user ex ≠ [] := by
  rcases resolveTarget_cases pfx sites user ex with h | ⟨p, h⟩ <;> rw [h] <;>
    exact List.cons_ne_nil _ _

theorem digit_isDigit {k : Nat} (h : k < 10) : (Nat.digitChar k).isDigit = true := by
  interval_cases k <;> decide

theorem pad2_digits (n : Nat) : (pad2 n).all Char.isDigit = true := by
  simp only [pad2, List.all_cons, List.all_nil, Bool.and_eq_true, Bool.and_true]
  exact ⟨digit_isDigit (Nat.mod_lt _ (by decide)), digit_isDigit (Nat.mod_lt _ (by decide))⟩

theorem pad4_digits (n : Nat) : (pad4 n).all Char.isDigit = true := by
  simp only [pad4, List.all_cons, List.all_nil, Bool.and_eq_true, Bool.and_true]
  exact ⟨digit_isDigit (Nat.mod_lt _ (by decide)), digit_isDigit (Nat.mod_lt _ (by decide)),
    digit_isDigit (Nat.mod_lt _ (by decide)), digit_isDigit (Nat.mod_lt _ (by decide))⟩

theorem fmtStamp_shape (t : DT) :
    ∃ dp tp, fmtStamp t = dp ++ '_' :: tp ∧ dp.length = 8 ∧ tp.length = 6 ∧
      dp.all Char.isDigit = true ∧ tp.all Char.isDigit = true := by
  refine ⟨pad4 t.y ++ pad2 t.mo ++ pad2 t.d, pad2 t.h ++ pad2 t.mi ++ pad2 t.s,
    ?_, ?_, ?_, ?_, ?_⟩
  · simp [fmtStamp, List.append_assoc]
  · simp [pad4, pad2]
  · simp [pad2]
  · simp [List.all_append, pad4_digits, pad2_digits]
  · simp [List.all_append, pad2_digits]

theorem fmtStamp_length (t : DT) : (fmtStamp t).length = 15 := by
  simp [fmtStamp, pad4, pad2]

theorem backupName_logs (st : Str) :
    withSuffix (str "logs.py") (nameSuffix (str "logs.py") ++ str ".bak_" ++ st) =
      str "logs.py" ++ str ".bak_" ++ st := rfl

/-- C4: when the target is found and its content already contains the marker
(line 38), the run performs no filesystem writes and exits with status 0. -/
theorem claim_C4_already_patched (pfx : Str) (sites : List Str) (user : Str)
    (ex : PPath → Bool) (rd : PPath → Str) (now : DT)
    (ht : ex (resolveTarget pfx sites user ex) = true)
    (hm : hasSub marker (rd (resolveTarget pfx sites user ex)) = true) :
    script pfx sites user ex rd now = ⟨0, []⟩ := by
  simp [script, ht, applyPatch_marker hm]

/-- Witness for C4: an existing target whose content is the marker itself. -/
theorem claim_C4_witness :
    script (str "p") [] (str "u") fsAll rdMarker dtDemo = ⟨0, []⟩ :=
  claim_C4_already_patched (str "p") [] (str "u") fsAll rdMarker dtDemo rfl (by decide)

/-- C5: when the target is found but its content has neither the marker nor
the `old_call` pattern, the run performs no filesystem writes and exits with
status 1 (line 51). -/
theorem claim_C5_pattern_missing (pfx : Str) (sites : List Str) (user : Str)
    (ex : PPath → Bool) (rd : PPath → Str) (now : DT)
    (ht : ex (resolveTarget pfx sites user ex) = true)
    (hm : hasSub marker (rd (resolveTarget pfx sites user ex)) = false)
    (hc : hasSub old_call (rd (resolveTarget pfx sites user ex)) = false) :
    script pfx sites user ex rd now = ⟨1, []⟩ := by
  have hc1 : hasSub old_call (insertShutil (rd (resolveTarget pfx sites user ex))) = false := by
    refine hasSub_false_iff.2 ?_
    rw [occurs_insertShutil_iff (by decide)
      (fun h => absurd ((hasSub_iff _ _).2 h) (by decide))]
    exact hasSub_false_iff.1 hc
  simp [script, ht, applyPatch_noPattern hm hc1]

/-- Witness for C5: an existing target with unrelated content. -/
theorem claim_C5_witness :
    script (str "p") [] (str "u") fsAll rdPlain dtDemo = ⟨1, []⟩ :=
  claim_C5_pattern_missing (str "p") [] (str "u") fsAll rdPlain dtDemo rfl
    (by decide) (by decide)

/-- C6: when neither the primary prefix-derived path nor any site-packages
candidate exists, the run performs no filesystem writes anywhere and exits
with status 1 (lines 30-32). -/
theorem claim_C6_target_missing (pfx : Str) (sites : List Str) (user : Str)
    (ex : PPath → Bool) (rd : PPath → Str) (now : DT)
    (h0 : ex (primaryTarget pfx) = false)
    (hall : ∀ p ∈ sites ++ [user], ex (candidateOf p) = false) :
    script pfx sites user ex rd now = ⟨1, []⟩ := by
  have hres : resolveTarget pfx sites user ex = primaryTarget pfx := by
    simp only [resolveTarget, h0, Bool.false_eq_true, if_false]
    rw [List.find?_eq_none.2 fun x hx => ?_]
    obtain ⟨p, hp, rfl⟩ := List.mem_map.1 hx
    simp [hall p hp]
  rw [script]
  rw [hres]
  simp [h0]

/-- Witness for C6: a filesystem with no existing path at all. -/
theorem claim_C6_witness :
    script (str "p") [str "s"] (str "u") fsNone rdPlain dtDemo = ⟨1, []⟩ :=
  claim_C6_target_missing (str "p") [str "s"] (str "u") fsNone rdPlain dtDemo rfl
    (fun p _ => rfl)

/-- C7: on every successful patch run the script performs exactly two writes,
first the backup and then the target; the backup path is the sibling of the
target whose name is the target's name (always `logs.py`) followed by
`.bak_` and the clock value rendered as `YYYYMMDD_HHMMSS` (eight digits, an
underscore, six digits); the backup path differs from the target path, so
exactly one backup is created.  The field bounds are those `datetime`
guarantees (with years below 1000 excluded, where `%Y` need not pad to four
digits). -/
theorem claim_C7_backup_naming (pfx : Str) (sites : List Str) (user : Str)
    (ex : PPath → Bool) (rd : PPath → Str) (now : DT)
    (ht : ex (resolveTarget pfx sites user ex) = true)
    (hm : hasSub marker (rd (resolveTarget pfx sites user ex)) = false)
    (hc : hasSub old_call (insertShutil (rd (resolveTarget pfx sites user ex))) = true)
    (hy1 : 1000 ≤ now.y) (hy2 : now.y ≤ 9999)
    (hmo1 : 1 ≤ now.mo) (hmo2 : now.mo ≤ 12)
    (hd1 : 1 ≤ now.d) (hd2 : now.d ≤ 31)
    (hh : now.h ≤ 23) (hmi : now.mi ≤ 59) (hs : now.s ≤ 59) :
    ∃ dp tp,
      script pfx sites user ex rd now =
        ⟨0, [(withName (resolveTarget pfx sites user ex)
                (pathName (resolveTarget pfx sites user ex) ++ str ".bak_" ++ fmtStamp now),
              insertShutil (rd (resolveTarget pfx sites user ex))),
             (resolveTarget pfx sites user ex,
              replaceFirst (insertShutil (rd (resolveTarget pfx sites user ex)))
                old_call new_block)]⟩ ∧
      pathName (resolveTarget pfx sites user ex) = str "logs.py" ∧
      fmtStamp now = dp ++ '_' :: tp ∧ dp.length = 8 ∧ tp.length = 6 ∧
      dp.all Char.isDigit = true ∧ tp.all Char.isDigit = true ∧
      withName (resolveTarget pfx sites user ex)
          (pathName (resolveTarget pfx sites user ex) ++ str ".bak_" ++ fmtStamp now) ≠
        resolveTarget pfx sites user ex := by
  obtain ⟨dp, tp, hfs, hdp, htp, hda, hta⟩ := fmtStamp_shape now
  have hname := pathName_resolveTarget pfx sites user ex
  refine ⟨dp, tp, ?_, hname, hfs, hdp, htp, hda, hta, ?_⟩
  · simp only [script, ht, if_true, applyPatch_success hm hc, hname]
    rfl
  · intro heq
    have hnn : resolveTarget pfx sites user ex ≠ [] := resolveTarget_ne_nil pfx sites user ex
    have h5 : ((resolveTarget pfx sites user ex).dropLast
        ++ [pathName (resolveTarget pfx sites user ex) ++ str ".bak_" ++ fmtStamp now]).getLast?
        = some (pathName (resolveTarget pfx sites user ex) ++ str ".bak_" ++ fmtStamp now) :=
      List.getLast?_concat _
    rw [withName] at heq
    rw [heq] at h5
    have hgl : (resolveTarget pfx sites user ex).getLast?
        = some ((resolveTarget pfx sites user ex).getLast hnn) :=
      List.getLast?_eq_getLast _ hnn
    rw [hgl] at h5
    injection h5 with h6
    have hpn : pathName (resolveTarget pfx sites user ex)
        = (resolveTarget pfx sites user ex).getLast hnn := by
      rw [pathName, hgl]
      rfl
    rw [hpn] at h6
    have h7 := congrArg List.length h6
    rw [List.length_append, List.length_append, fmtStamp_length] at h7
    have h8 : (str ".bak_").length = 5 := rfl
    omega

/-- Witness for C7: an always-existing filesystem whose target content is
`demoB`. -/
theorem claim_C7_witness :
    ∃ dp tp,
      script (str "p") [] (str "u") fsAll rdB dtDemo =
        ⟨0, [(withName (resolveTarget (str "p") [] (str "u") fsAll)
                (pathName (resolveTarget (str "p") [] (str "u") fsAll) ++ str ".bak_" ++ fmtStamp dtDemo),
              insertShutil (rdB (resolveTarget (str "p") [] (str "u") fsAll))),
             (resolveTarget (str "p") [] (str "u") fsAll,
              replaceFirst (insertShutil (rdB (resolveTarget (str "p") [] (str "u") fsAll)))
                old_call new_block)]⟩ ∧
      pathName (resolveTarget (str "p") [] (str "u") fsAll) = str "logs.py" ∧
      fmtStamp dtDemo = dp ++ '_' :: tp ∧ dp.length = 8 ∧ tp.length = 6 ∧
      dp.all Char.isDigit = true ∧ tp.all Char.isDigit = true ∧
      withName (resolveTarget (str "p") [] (str "u") fsAll)
          (pathName (resolveTarget (str "p") [] (str "u") fsAll) ++ str ".bak_" ++ fmtStamp dtDemo) ≠
        resolveTarget (str "p") [] (str "u") fsAll :=
  claim_C7_backup_naming (str "p") [] (str "u") fsAll rdB dtDemo rfl
    (by decide) (by decide) (by decide) (by decide) (by decide) (by decide)
    (by decide) (by decide) (by decide) (by decide) (by decide)
